import Mathlib

/-!
Verification of the `markdownd` single-file HTTP markdown server
(`src/main.go`) against its natural-language specification.

The per-request pipeline `Server.ServeHTTP`, the symlink check
`fileisgood`, and the path preparation `prepareDirectory` are embedded
shallowly.  Go strings are embedded as `List Char`; the string helpers
from Go's `strings` package (`Contains`, `HasPrefix`, `HasSuffix`,
`TrimSuffix`) are reimplemented below with matching semantics, as is the
lexical path cleaning performed by Go's `path/filepath.Abs`/`Clean`
(the Plan-9 style `.`/`..` segment elimination), here realised with a
component stack.  The filesystem, the content sniffer
`http.DetectContentType`, and the markdown renderer
`blackfriday.MarkdownCommon` are external collaborators: they appear as
function-valued fields of an environment record `Env`, and the handler
additionally returns the ordered list of filesystem operations it
performed so that "no filesystem access" claims are statable.
-/

/-- Go `strings.HasPrefix s pre` (pattern argument first here). -/
def startsWith : List Char → List Char → Bool
  | [], _ => true
  | _ :: _, [] => false
  | a :: as, b :: bs => a == b && startsWith as bs

/-- Go `strings.HasSuffix s suf` (pattern argument first here). -/
def endsWith (suf s : List Char) : Bool :=
  startsWith suf.reverse s.reverse

/-- Go `strings.Contains s sub`. -/
def goContains : List Char → List Char → Bool
  | [], sub => sub.isEmpty
  | c :: t, sub => startsWith sub (c :: t) || goContains t sub

/-- Go `strings.TrimSuffix s suf` (pattern argument first here). -/
def trimSuffixL (suf s : List Char) : List Char :=
  if endsWith suf s then s.take (s.length - suf.length) else s

/-- Go `filepath.IsAbs` on Unix: the path starts with a slash. -/
def isAbsL (p : List Char) : Bool :=
  startsWith ['/'] p

/-- Splits a character list at every slash (Go path components). -/
def splitSlash : List Char → List (List Char)
  | [] => [[]]
  | c :: t =>
    if c = '/' then [] :: splitSlash t
    else
      match splitSlash t with
      | [] => [[c]]
      | h :: r => (c :: h) :: r

/-- Stack phase of lexical cleaning for rooted paths: empty and `.`
components are dropped, `..` pops the stack (or is dropped at the
root), ordinary components are pushed. -/
def cleanStack : List (List Char) → List (List Char) → List (List Char)
  | acc, [] => acc
  | acc, c :: rest =>
    if c = [] ∨ c = ['.'] then cleanStack acc rest
    else if c = ['.', '.'] then cleanStack acc.tail rest
    else cleanStack (c :: acc) rest

/-- Modelled from the spec: Go `path/filepath.Clean` restricted to
rooted (slash-leading) paths — the documented Plan-9 lazybuf algorithm
eliminating empty, `.` and `..` segments, realised with a component
stack.  (`filepath` is a Go standard-library collaborator, not part of
`src/`.) -/
def cleanAbs (p : List Char) : List Char :=
  '/' :: List.intercalate ['/'] (cleanStack [] (splitSlash p)).reverse

/-- Modelled from the spec: Go `path/filepath.Abs` — `Clean(path)` when
`path` is already absolute, otherwise `Clean(cwd + "/" + path)`.  The
error return of the Go function can only arise from a failing `Getwd`
and is modelled as impossible (the handler only ever reaches it with an
absolute input anyway). -/
def goAbs (cwd p : List Char) : List Char :=
  cleanAbs (if isAbsL p then p else cwd ++ '/' :: p)

/-- One filesystem operation performed by the handler, in order. -/
inductive FSOp where
  | openOp (p : List Char)
  | evalSymlinksOp (p : List Char)
  | readFileOp (p : List Char)
deriving DecidableEq

/-- External collaborators of the pipeline: the current working
directory, the filesystem (`os.Open` success, `filepath.EvalSymlinks`,
`ioutil.ReadFile`), the content sniffer `http.DetectContentType`, and
the opaque markdown renderer `blackfriday.MarkdownCommon`. -/
structure Env where
  cwd : List Char
  openOk : List Char → Bool
  evalSymlinks : List Char → Option (List Char)
  readFile : List Char → Option (List Nat)
  detect : List Nat → List Char
  markdown : List Nat → List Nat

/-- An incoming HTTP request as the handler sees it. -/
structure Request where
  method : List Char
  urlPath : List Char
  rawQuery : List Char
deriving DecidableEq

/-- The observable outcome of a request: the uniform not-found reply
(`http.NotFound`, status 404), a 200 reply whose body is the given
bytes (`w.Write`), or delegation to `http.ServeFile` on a path. -/
inductive Outcome where
  | notFound
  | content (b : List Nat)
  | staticServe (p : List Char)
deriving DecidableEq

/-- A response: the headers the handler itself added, in order, plus
the outcome. -/
structure Response where
  headers : List (List Char × List Char)
  outcome : Outcome
deriving DecidableEq

def gGET : List Char := "GET".toList

def ddSlash : List Char := "../".toList

def slashL : List Char := "/".toList

def indexMdL : List Char := "index.md".toList

def dotHtml : List Char := ".html".toList

def dotMd : List Char := ".md".toList

def textHtml : List Char := "text/html".toList

def textPlain : List Char := "text/plain".toList

def rawLit : List Char := "raw".toList

def hServer : List Char := "Server".toList

def hXFO : List Char := "X-Frame-Options".toList

def denyV : List Char := "DENY".toList

def hContentType : List Char := "Content-Type".toList

/-- Source constant `version = "0.0.6"`. -/
def versionL : List Char := "0.0.6".toList

/-- Source constant `serverheader = "markdownd/" + version`. -/
def serverheader : List Char := "markdownd/".toList ++ versionL

/-- The two headers added at the top of `ServeHTTP` (lines 158-161),
in insertion order. -/
def stdHeaders : List (List Char × List Char) :=
  [(hServer, serverheader), (hXFO, denyV)]

/-- The conditional canonicalisation inside `fileisgood` (lines
284-286): `filepath.Abs` is applied only when the input is not already
absolute. -/
def condCanon (env : Env) (p : List Char) : List Char :=
  if isAbsL p then p else goAbs env.cwd p

/-- Source `fileisgood` (lines 278-299): false for the empty path;
otherwise resolve all symlinks of the (conditionally canonicalised)
path with `filepath.EvalSymlinks` and require the real path to equal it
byte for byte.  The `filepath.Abs` error branch (line 288) is dead in
the model since `goAbs` is total. -/
def fileisgood (env : Env) (abs : List Char) : Bool :=
  if abs = [] then false
  else
    match env.evalSymlinks (condCanon env abs) with
    | some realpath => realpath == condCanon env abs
    | none => false

/-- Lines 167-176: strip the leading slash, substitute the `-index`
flag value for the empty remainder, and append the literal
`"index.md"` to a remainder ending in a slash. -/
def normalizePath (idxPage p : List Char) : List Char :=
  let a := p.drop 1
  let a1 := if a = [] then idxPage else a
  if endsWith slashL a1 then a1 ++ indexMdL else a1

/-- Lines 179-188: prepend the root string and take the canonical
absolute form. -/
def resolvePath (env : Env) (rootString idxPage p : List Char) : List Char :=
  goAbs env.cwd (rootString ++ normalizePath idxPage p)

/-- Lines 196-203: for a path ending in `.html`, probe the sibling
with the `.md` extension via `os.Open` and substitute it when the
probe succeeds. -/
def substHtml (env : Env) (abs : List Char) : List Char :=
  if endsWith dotHtml abs then
    let trymd := trimSuffixL dotHtml abs ++ dotMd
    if env.openOk trymd then trymd else abs
  else abs

/-- The final filesystem path a request is served from: the resolved
path after the `.html` → `.md` substitution probe. -/
def servedPath (env : Env) (rootString idxPage : List Char) (r : Request) : List Char :=
  substHtml env (resolvePath env rootString idxPage r.urlPath)

/-- Lines 246-273: the rendering dispatch on the read bytes — raw
HTML (with an explicit `Content-Type: text/html`), rendered or raw
markdown, or delegation to `http.ServeFile`. -/
def dispatch (env : Env) (rawQuery abs : List Char) (b : List Nat) : Response :=
  let ct := env.detect b
  if endsWith dotHtml abs || startsWith textHtml ct then
    ⟨stdHeaders ++ [(hContentType, textHtml)], Outcome.content b⟩
  else if endsWith dotMd abs && startsWith textPlain ct then
    if goContains rawQuery rawLit then ⟨stdHeaders, Outcome.content b⟩
    else ⟨stdHeaders, Outcome.content (env.markdown b)⟩
  else ⟨stdHeaders, Outcome.staticServe abs⟩

/-- Lines 222-273: the stage after the existence check — the
`fileisgood` symlink check, the root-prefix check, `ioutil.ReadFile`,
and the dispatch.  `tr` is the filesystem-operation trace so far. -/
def afterOpen (env : Env) (rootString rawQuery abs : List Char) (tr : List FSOp) :
    Response × List FSOp :=
  let tr2 := tr ++ [FSOp.evalSymlinksOp (condCanon env abs)]
  if fileisgood env abs then
    if startsWith rootString abs then
      match env.readFile abs with
      | some b => (dispatch env rawQuery abs b, tr2 ++ [FSOp.readFileOp abs])
      | none => (⟨stdHeaders, Outcome.notFound⟩, tr2 ++ [FSOp.readFileOp abs])
    else (⟨stdHeaders, Outcome.notFound⟩, tr2)
  else (⟨stdHeaders, Outcome.notFound⟩, tr2)

/-- Source `Server.ServeHTTP` (lines 138-274): reject non-GET methods
and paths containing `../` before any header is added or any
filesystem operation happens; then add the `Server` and
`X-Frame-Options` headers, resolve the path, run the `.html` → `.md`
probe, the existence check, the symlink check, the root-prefix check,
read the file and dispatch.  The second component is the ordered trace
of filesystem operations performed. -/
def serve (env : Env) (rootString idxPage : List Char) (r : Request) :
    Response × List FSOp :=
  if r.method = gGET then
    if goContains r.urlPath ddSlash then (⟨[], Outcome.notFound⟩, [])
    else
      let abs0 := resolvePath env rootString idxPage r.urlPath
      let probeTr :=
        if endsWith dotHtml abs0 then [FSOp.openOp (trimSuffixL dotHtml abs0 ++ dotMd)]
        else []
      let abs := substHtml env abs0
      let tr1 := probeTr ++ [FSOp.openOp abs]
      if env.openOk abs then afterOpen env rootString r.rawQuery abs tr1
      else (⟨stdHeaders, Outcome.notFound⟩, tr1)
  else (⟨[], Outcome.notFound⟩, [])

/-- Source `prepareDirectory` (lines 302-320): make the root argument
absolute and slash-terminated. -/
def prepareDirectory (env : Env) (dir : List Char) : List Char :=
  let dir := if dir = ['.'] then dir ++ ['/'] else dir
  let dir := goAbs env.cwd dir
  if endsWith slashL dir then dir else dir ++ ['/']

/-- The filesystem operations a GET request performs before the
existence check: the `.html` sibling probe (when the resolved path ends
in `.html`) followed by the `os.Open` existence check on the final
served path. -/
def probeTrace (env : Env) (rootString idxPage : List Char) (r : Request) : List FSOp :=
  (if endsWith dotHtml (resolvePath env rootString idxPage r.urlPath) then
    [FSOp.openOp (trimSuffixL dotHtml (resolvePath env rootString idxPage r.urlPath) ++ dotMd)]
  else []) ++ [FSOp.openOp (servedPath env rootString idxPage r)]

/-- Modelled from the claim's words (C3): `fileisgood` is said to
return true iff the path is non-empty, canonicalization succeeds,
symlink resolution succeeds, and the real path equals the canonical
form of the input. -/
def fileisgoodSpec (env : Env) (p : List Char) : Bool :=
  !p.isEmpty && env.evalSymlinks (goAbs env.cwd p) == some (goAbs env.cwd p)

/-- Modelled from the claim's words (C7): the resolver is said to
substitute the configured index filename for every path ending in a
slash. -/
def normalizePathSpec (idxPage p : List Char) : List Char :=
  let a := p.drop 1
  let a1 := if a = [] then idxPage else a
  if endsWith slashL a1 then a1 ++ idxPage else a1

/-- Modelled from the claim's words (C7): resolution using the
claimed normalization. -/
def resolvePathSpec (env : Env) (rootString idxPage p : List Char) : List Char :=
  goAbs env.cwd (rootString ++ normalizePathSpec idxPage p)

/-- The `.md` sibling path probed for a resolved path ending in
`.html` (line 197 of the source). -/
def mdSibling (env : Env) (rootString idxPage : List Char) (r : Request) : List Char :=
  trimSuffixL dotHtml (resolvePath env rootString idxPage r.urlPath) ++ dotMd

/-- A trivial environment whose filesystem is empty, used to
instantiate universally quantified theorems at concrete inputs. -/
def envTriv : Env :=
  ⟨"/".toList, fun _ => false, fun _ => none, fun _ => none,
   fun _ => [], fun b => b⟩

/-- An environment whose files all open but in which every symlink
resolution fails (for example every path crosses a broken link), so
`fileisgood` rejects every path. -/
def envBroken : Env :=
  ⟨"/".toList, fun _ => true, fun _ => none, fun _ => none,
   fun _ => [], fun b => b⟩

/-- An environment in which only the regular file `/a/b` exists and no
path component is a symbolic link, so `filepath.EvalSymlinks` succeeds
exactly on the existing clean paths and returns them unchanged. -/
def envNoLink : Env :=
  ⟨"/".toList, fun p => p = "/a/b".toList,
   fun p => if p = "/a/b".toList ∨ p = "/a/./b".toList then some "/a/b".toList else none,
   fun p => if p = "/a/b".toList then some [104, 105] else none,
   fun _ => "text/plain; charset=utf-8".toList, fun b => b⟩

/-- The UTF-8 bytes of `<html></html>`. -/
def htmlBytes : List Nat := "<html></html>".toList.map Char.toNat

/-- The UTF-8 bytes of `hi`. -/
def hiBytes : List Nat := "hi".toList.map Char.toNat

/-- The UTF-8 bytes of the blackfriday rendering of `hi`, namely
`<p>hi</p>` followed by a newline. -/
def pHiBytes : List Nat := "<p>hi</p>\n".toList.map Char.toNat

/-- An environment for root `/r/` in which `/r/a` exists as a regular
HTML file and nothing is a symbolic link: `EvalSymlinks` is the
identity on the clean existing paths, the sniffer reports `text/html`
on the file's bytes, and the renderer is the identity (it is never
invoked on the relevant run). -/
def envFileA : Env :=
  ⟨"/".toList,
   fun p => p = "/r/a".toList ∨ p = "/".toList,
   fun p => if p = "/r/a".toList ∨ p = "/".toList then some p else none,
   fun p => if p = "/r/a".toList then some htmlBytes else none,
   fun b => if b = htmlBytes then "text/html; charset=utf-8".toList
            else "application/octet-stream".toList,
   fun b => b⟩

/-- An environment for root `/r/` in which `/r/p.html` and `/r/p.md`
both exist, `/r/p.md` holds the bytes `hi` sniffed as plain text, no
path is a symbolic link, and the markdown renderer maps `hi` to
`<p>hi</p>\n` as blackfriday does. -/
def envPagePair : Env :=
  ⟨"/".toList,
   fun p => p = "/r/p.html".toList ∨ p = "/r/p.md".toList,
   fun p => if p = "/r/p.html".toList ∨ p = "/r/p.md".toList then some p else none,
   fun p => if p = "/r/p.md".toList then some hiBytes else none,
   fun b => if b = hiBytes then "text/plain; charset=utf-8".toList
            else "application/octet-stream".toList,
   fun b => if b = hiBytes then pHiBytes else b⟩

/-- An environment for root `/r/` in which `/r/doc.md` exists with the
bytes `hi` sniffed as plain text, nothing is a symbolic link, and the
renderer maps `hi` to `<p>hi</p>\n` as blackfriday does. -/
def envDoc : Env :=
  ⟨"/".toList,
   fun p => p = "/r/doc.md".toList,
   fun p => if p = "/r/doc.md".toList then some p else none,
   fun p => if p = "/r/doc.md".toList then some hiBytes else none,
   fun b => if b = hiBytes then "text/plain; charset=utf-8".toList
            else "application/octet-stream".toList,
   fun b => if b = hiBytes then pHiBytes else b⟩

/-! Helper lemmas about the string primitives. -/

theorem startsWith_take (pre s : List Char) (h : startsWith pre s = true) :
    s.take pre.length = pre := by
  induction pre generalizing s with
  | nil => simp
  | cons a as ih =>
    cases s with
    | nil => simp [startsWith] at h
    | cons b bs =>
      simp only [startsWith, Bool.and_eq_true, beq_iff_eq] at h
      simp [h.1, ih bs h.2]

theorem startsWith_clash (p q s : List Char) (hpq : q.take p.length ≠ p)
    (hlen : p.length ≤ q.length) (h1 : startsWith p s = true)
    (h2 : startsWith q s = true) : False := by
  apply hpq
  have hp := startsWith_take p s h1
  have hq := startsWith_take q s h2
  rw [← hq, List.take_take, Nat.min_eq_left hlen, hp]

theorem plain_not_html (ct : List Char) (h : startsWith textPlain ct = true) :
    startsWith textHtml ct = false := by
  by_contra hc
  rw [Bool.not_eq_false] at hc
  exact startsWith_clash textHtml textPlain ct (by decide) (by decide) hc h

theorem endsWith_md_not_html (s : List Char) (h : endsWith dotMd s = true) :
    endsWith dotHtml s = false := by
  unfold endsWith at h ⊢
  by_contra hc
  rw [Bool.not_eq_false] at hc
  exact startsWith_clash (dotMd.reverse) (dotHtml.reverse) s.reverse
    (by decide) (by decide) h hc

theorem startsWith_append_self (p t : List Char) : startsWith p (p ++ t) = true := by
  induction p with
  | nil => simp [startsWith]
  | cons a as ih => simp [startsWith, ih]

theorem endsWith_append_self (suf x : List Char) : endsWith suf (x ++ suf) = true := by
  unfold endsWith
  rw [List.reverse_append]
  exact startsWith_append_self suf.reverse x.reverse

/-! Stage lemmas decomposing `serve` along its branches. -/

theorem serve_eq_of_badMethod (env : Env) (rootString idxPage : List Char) (r : Request)
    (hm : r.method ≠ gGET) :
    serve env rootString idxPage r = (⟨[], Outcome.notFound⟩, []) := by
  unfold serve
  simp [hm]

theorem serve_eq_of_dotdot (env : Env) (rootString idxPage : List Char) (r : Request)
    (hq : goContains r.urlPath ddSlash = true) :
    serve env rootString idxPage r = (⟨[], Outcome.notFound⟩, []) := by
  unfold serve
  by_cases hm : r.method = gGET <;> simp [hm, hq]

theorem serve_eq_of_GET (env : Env) (rootString idxPage : List Char) (r : Request)
    (hm : r.method = gGET) (hq : goContains r.urlPath ddSlash = false) :
    serve env rootString idxPage r =
      (if env.openOk (servedPath env rootString idxPage r) then
        afterOpen env rootString r.rawQuery (servedPath env rootString idxPage r)
          (probeTrace env rootString idxPage r)
      else (⟨stdHeaders, Outcome.notFound⟩, probeTrace env rootString idxPage r)) := by
  unfold serve probeTrace servedPath
  simp [hm, hq]

theorem afterOpen_eq_of_badLink (env : Env) (rootString rawQuery abs : List Char)
    (tr : List FSOp) (h : fileisgood env abs = false) :
    afterOpen env rootString rawQuery abs tr =
      (⟨stdHeaders, Outcome.notFound⟩, tr ++ [FSOp.evalSymlinksOp (condCanon env abs)]) := by
  unfold afterOpen
  simp [h]

theorem afterOpen_eq_of_badRoot (env : Env) (rootString rawQuery abs : List Char)
    (tr : List FSOp) (h1 : fileisgood env abs = true)
    (h2 : startsWith rootString abs = false) :
    afterOpen env rootString rawQuery abs tr =
      (⟨stdHeaders, Outcome.notFound⟩, tr ++ [FSOp.evalSymlinksOp (condCanon env abs)]) := by
  unfold afterOpen
  simp [h1, h2]

theorem afterOpen_eq_of_read (env : Env) (rootString rawQuery abs : List Char)
    (tr : List FSOp) (b : List Nat) (h1 : fileisgood env abs = true)
    (h2 : startsWith rootString abs = true) (h3 : env.readFile abs = some b) :
    afterOpen env rootString rawQuery abs tr =
      (dispatch env rawQuery abs b,
       tr ++ [FSOp.evalSymlinksOp (condCanon env abs), FSOp.readFileOp abs]) := by
  unfold afterOpen
  simp [h1, h2, h3]

theorem afterOpen_eq_of_readFail (env : Env) (rootString rawQuery abs : List Char)
    (tr : List FSOp) (h1 : fileisgood env abs = true)
    (h2 : startsWith rootString abs = true) (h3 : env.readFile abs = none) :
    afterOpen env rootString rawQuery abs tr =
      (⟨stdHeaders, Outcome.notFound⟩,
       tr ++ [FSOp.evalSymlinksOp (condCanon env abs), FSOp.readFileOp abs]) := by
  unfold afterOpen
  simp [h1, h2, h3]

theorem readFile_not_mem_probeTrace (env : Env) (rootString idxPage : List Char)
    (r : Request) (q : List Char) :
    FSOp.readFileOp q ∉ probeTrace env rootString idxPage r := by
  unfold probeTrace
  split_ifs <;> simp

theorem serve_headers_shape (env : Env) (rootString idxPage : List Char) (r : Request)
    (hm : r.method = gGET) (hq : goContains r.urlPath ddSlash = false) :
    (serve env rootString idxPage r).1.headers = stdHeaders ∨
    (serve env rootString idxPage r).1.headers = stdHeaders ++ [(hContentType, textHtml)] := by
  unfold serve afterOpen dispatch
  simp only [hm, hq, if_true, Bool.false_eq_true, if_false, reduceIte]
  split_ifs <;> (try simp) <;> (split <;> (try split_ifs) <;> simp)

/-! Claim theorems. -/

/-- Claim C1: for every incoming request whose URL path contains the
literal substring `../`, the handler returns the uniform not-found
response (no headers added) and performs no filesystem access at all
(the operation trace is empty). -/
theorem c1_traversal_guard (env : Env) (rootString idxPage : List Char) (r : Request)
    (h : goContains r.urlPath ddSlash = true) :
    serve env rootString idxPage r = (⟨[], Outcome.notFound⟩, []) := by
  unfold serve
  by_cases hm : r.method = gGET <;> simp [hm, h]

/-- Witness for C1 at the concrete request `GET /a/../b`. -/
theorem c1_traversal_guard_witness :
    goContains "/a/../b".toList ddSlash = true ∧
    serve envTriv "/r/".toList indexMdL ⟨gGET, "/a/../b".toList, []⟩ =
      (⟨[], Outcome.notFound⟩, []) :=
  ⟨by decide,
   c1_traversal_guard envTriv "/r/".toList indexMdL ⟨gGET, "/a/../b".toList, []⟩ (by decide)⟩

/-- Claim C10: a request with a non-GET method yields an outcome
(status and body) identical to a GET request on a path that does not
exist: both are the uniform not-found reply. -/
theorem c10_uniform_notfound (env env' : Env)
    (rootString rootString' idxPage idxPage' : List Char) (r r' : Request)
    (hm : r.method ≠ gGET) (hm' : r'.method = gGET)
    (hq' : goContains r'.urlPath ddSlash = false)
    (ho : env'.openOk (servedPath env' rootString' idxPage' r') = false) :
    (serve env rootString idxPage r).1.outcome = Outcome.notFound ∧
    (serve env' rootString' idxPage' r').1.outcome = Outcome.notFound ∧
    (serve env rootString idxPage r).1.outcome =
      (serve env' rootString' idxPage' r').1.outcome := by
  have h1 := serve_eq_of_badMethod env rootString idxPage r hm
  have h2 := serve_eq_of_GET env' rootString' idxPage' r' hm' hq'
  rw [ho] at h2
  simp only [Bool.false_eq_true, if_false] at h2
  rw [h1, h2]
  exact ⟨rfl, rfl, rfl⟩

/-- Witness for C10: `POST /x` and `GET /nope.md` on an empty
filesystem both produce the not-found outcome. -/
theorem c10_uniform_notfound_witness :
    (serve envTriv "/r/".toList indexMdL ⟨"POST".toList, "/x".toList, []⟩).1.outcome =
      Outcome.notFound ∧
    (serve envTriv "/r/".toList indexMdL ⟨gGET, "/nope.md".toList, []⟩).1.outcome =
      Outcome.notFound :=
  have h := c10_uniform_notfound envTriv envTriv "/r/".toList "/r/".toList indexMdL indexMdL
    ⟨"POST".toList, "/x".toList, []⟩ ⟨gGET, "/nope.md".toList, []⟩
    (by decide) (by decide) (by decide) (by decide)
  ⟨h.1, h.2.1⟩

theorem contentType_not_mem_std (v : List Char) : (hContentType, v) ∉ stdHeaders := by
  intro h
  simp only [stdHeaders, List.mem_cons, List.not_mem_nil, or_false,
    Prod.mk.injEq] at h
  rcases h with ⟨h1, _⟩ | ⟨h1, _⟩ <;> exact absurd h1 (by decide)

/-- Claim C8 (amended): once the method and traversal guards have
passed, every response — including every later not-found response —
carries both the `Server: markdownd/0.0.6` header and the
`X-Frame-Options: DENY` header.  The two guard rejections themselves
(non-GET method, `../` in the path) return before any header is
added, so those two responses carry neither header; that is the
counterexample to the claim as stated. -/
theorem c8_headers_after_guards (env : Env) (rootString idxPage : List Char) (r : Request)
    (hm : r.method = gGET) (hq : goContains r.urlPath ddSlash = false) :
    (hServer, serverheader) ∈ (serve env rootString idxPage r).1.headers ∧
    (hXFO, denyV) ∈ (serve env rootString idxPage r).1.headers := by
  rcases serve_headers_shape env rootString idxPage r hm hq with h | h <;> rw [h] <;>
    simp [stdHeaders]

/-- Counterexample for C8 as stated: the not-found response to a
non-GET request carries neither the server-identification header nor
the anti-framing header. -/
theorem c8_counterexample :
    (serve envTriv "/r/".toList indexMdL ⟨"POST".toList, "/y".toList, []⟩).1.outcome =
      Outcome.notFound ∧
    (hServer, serverheader) ∉
      (serve envTriv "/r/".toList indexMdL ⟨"POST".toList, "/y".toList, []⟩).1.headers ∧
    (hXFO, denyV) ∉
      (serve envTriv "/r/".toList indexMdL ⟨"POST".toList, "/y".toList, []⟩).1.headers := by
  decide

/-- Witness for C8 (amended) at a concrete GET request whose file does
not exist: the not-found response still carries both headers. -/
theorem c8_headers_after_guards_witness :
    (hServer, serverheader) ∈
      (serve envTriv "/r/".toList indexMdL ⟨gGET, "/miss.md".toList, []⟩).1.headers ∧
    (hXFO, denyV) ∈
      (serve envTriv "/r/".toList indexMdL ⟨gGET, "/miss.md".toList, []⟩).1.headers :=
  c8_headers_after_guards envTriv "/r/".toList indexMdL ⟨gGET, "/miss.md".toList, []⟩
    (by decide) (by decide)

/-- Claim C9 (amended): the handler sets the `Content-Type` header
explicitly in exactly one branch — the raw-HTML branch, with value
`text/html` — and leaves it unset in every other branch, including
the rendered-markdown branch (which relies on the host's sniffing):
any explicitly set `Content-Type` has value `text/html`, and the
header list of every response is empty (guard rejections), the two
standard headers, or the two standard headers followed by the single
`Content-Type: text/html` entry of the raw-HTML branch. -/
theorem c9_content_type_only_html (env : Env) (rootString idxPage : List Char) (r : Request) :
    (∀ v, (hContentType, v) ∈ (serve env rootString idxPage r).1.headers → v = textHtml) ∧
    ((serve env rootString idxPage r).1.headers = [] ∨
     (serve env rootString idxPage r).1.headers = stdHeaders ∨
     (serve env rootString idxPage r).1.headers =
       stdHeaders ++ [(hContentType, textHtml)]) := by
  by_cases hm : r.method = gGET
  · by_cases hq : goContains r.urlPath ddSlash = true
    · rw [serve_eq_of_dotdot env rootString idxPage r hq]
      simp
    · rw [Bool.not_eq_true] at hq
      rcases serve_headers_shape env rootString idxPage r hm hq with h | h <;> rw [h]
      · refine ⟨fun v hv => absurd hv (contentType_not_mem_std v), Or.inr (Or.inl rfl)⟩
      · refine ⟨fun v hv => ?_, Or.inr (Or.inr rfl)⟩
        rw [List.mem_append] at hv
        rcases hv with hv | hv
        · exact absurd hv (contentType_not_mem_std v)
        · rw [List.mem_singleton, Prod.mk.injEq] at hv
          exact hv.2
  · rw [serve_eq_of_badMethod env rootString idxPage r hm]
    simp

/-- Counterexample for C9 as stated: a run through the
rendered-markdown branch — the body is the renderer's output on the
file's bytes — whose response carries no `Content-Type` header at
all, so the header is not set in the rendered-markdown branch. -/
theorem c9_counterexample :
    envDoc.readFile "/r/doc.md".toList = some hiBytes ∧
    envDoc.markdown hiBytes = pHiBytes ∧
    (serve envDoc "/r/".toList indexMdL ⟨gGET, "/doc.md".toList, []⟩).1 =
      ⟨stdHeaders, Outcome.content pHiBytes⟩ ∧
    (∀ x ∈ stdHeaders, x.1 ≠ hContentType) := by
  refine ⟨by decide, by decide, by decide, ?_⟩
  intro x hx
  rcases hx with _ | ⟨_, hx⟩
  · decide
  · rcases hx with _ | ⟨_, hx⟩
    · decide
    · cases hx

/-- Witness for C9 (amended) at a concrete rendered-markdown run. -/
theorem c9_content_type_only_html_witness :
    (serve envDoc "/r/".toList indexMdL ⟨gGET, "/doc.md".toList, []⟩).1.headers = [] ∨
    (serve envDoc "/r/".toList indexMdL ⟨gGET, "/doc.md".toList, []⟩).1.headers = stdHeaders ∨
    (serve envDoc "/r/".toList indexMdL ⟨gGET, "/doc.md".toList, []⟩).1.headers =
      stdHeaders ++ [(hContentType, textHtml)] :=
  (c9_content_type_only_html envDoc "/r/".toList indexMdL ⟨gGET, "/doc.md".toList, []⟩).2

/-- Claim C2: bytes are read from, and served for, the final resolved
path only after both the `fileisgood` symlink check and the
root-prefix check have passed on it; if either check fails, the file's
contents are never read (no `ReadFile` operation on it appears in the
trace) and the uniform not-found response is returned. -/
theorem c2_checks_before_read (env : Env) (rootString idxPage : List Char) (r : Request)
    (hm : r.method = gGET) (hq : goContains r.urlPath ddSlash = false) :
    ((fileisgood env (servedPath env rootString idxPage r) = false ∨
      startsWith rootString (servedPath env rootString idxPage r) = false) →
      ((serve env rootString idxPage r).1.outcome = Outcome.notFound ∧
       FSOp.readFileOp (servedPath env rootString idxPage r) ∉
         (serve env rootString idxPage r).2)) ∧
    (FSOp.readFileOp (servedPath env rootString idxPage r) ∈ (serve env rootString idxPage r).2 →
      fileisgood env (servedPath env rootString idxPage r) = true ∧
      startsWith rootString (servedPath env rootString idxPage r) = true) ∧
    (∀ b, (serve env rootString idxPage r).1.outcome = Outcome.content b →
      fileisgood env (servedPath env rootString idxPage r) = true ∧
      startsWith rootString (servedPath env rootString idxPage r) = true) := by
  have hs := serve_eq_of_GET env rootString idxPage r hm hq
  set sp := servedPath env rootString idxPage r with hspdef
  have hnp := readFile_not_mem_probeTrace env rootString idxPage r sp
  by_cases ho : env.openOk sp = true
  · rw [ho] at hs
    simp only [if_true] at hs
    by_cases hfg : fileisgood env sp = true
    · by_cases hpre : startsWith rootString sp = true
      · refine ⟨fun hor => ?_, fun _ => ⟨hfg, hpre⟩, fun b _ => ⟨hfg, hpre⟩⟩
        rcases hor with h | h
        · rw [hfg] at h; exact absurd h (by decide)
        · rw [hpre] at h; exact absurd h (by decide)
      · rw [Bool.not_eq_true] at hpre
        rw [afterOpen_eq_of_badRoot env rootString r.rawQuery sp _ hfg hpre] at hs
        rw [hs]
        refine ⟨fun _ => ⟨rfl, ?_⟩, fun hmem => ?_, fun b hb => by cases hb⟩
        · simp [List.mem_append, hnp]
        · exfalso
          rw [List.mem_append] at hmem
          rcases hmem with h | h
          · exact hnp h
          · simp at h
    · rw [Bool.not_eq_true] at hfg
      rw [afterOpen_eq_of_badLink env rootString r.rawQuery sp _ hfg] at hs
      rw [hs]
      refine ⟨fun _ => ⟨rfl, ?_⟩, fun hmem => ?_, fun b hb => by cases hb⟩
      · simp [List.mem_append, hnp]
      · exfalso
        rw [List.mem_append] at hmem
        rcases hmem with h | h
        · exact hnp h
        · simp at h
  · rw [Bool.not_eq_true] at ho
    rw [ho] at hs
    simp only [Bool.false_eq_true, if_false] at hs
    rw [hs]
    refine ⟨fun _ => ⟨rfl, hnp⟩, fun hmem => absurd hmem hnp, fun b hb => by cases hb⟩

/-- Witness for C2: in an environment where every symlink resolution
fails, `GET /x.md` is answered not-found and its file is never read. -/
theorem c2_checks_before_read_witness :
    fileisgood envBroken (servedPath envBroken "/r/".toList indexMdL
      ⟨gGET, "/x.md".toList, []⟩) = false ∧
    (serve envBroken "/r/".toList indexMdL ⟨gGET, "/x.md".toList, []⟩).1.outcome =
      Outcome.notFound ∧
    FSOp.readFileOp (servedPath envBroken "/r/".toList indexMdL
      ⟨gGET, "/x.md".toList, []⟩) ∉
      (serve envBroken "/r/".toList indexMdL ⟨gGET, "/x.md".toList, []⟩).2 :=
  have h := (c2_checks_before_read envBroken "/r/".toList indexMdL
    ⟨gGET, "/x.md".toList, []⟩ (by decide) (by decide)).1 (Or.inl (by decide))
  ⟨by decide, h.1, h.2⟩

/-- Claim C4 (amended): for a GET request whose path passes the
syntactic `../` guard, whenever the canonical concatenated path (after
the `.html` probe) fails the root-prefix check — as happens for `/..`,
whose canonical form is the parent of the slash-terminated root — the
handler returns not-found and never reads any file's contents.  Paths
ending in `..` whose canonical form stays inside the root (such as
`/a/b/..`) pass the prefix check and are served like the cleaned path;
that is the counterexample to the claim as stated. -/
theorem c4_root_escape_notfound (env : Env) (rootString idxPage : List Char) (r : Request)
    (hm : r.method = gGET) (hq : goContains r.urlPath ddSlash = false)
    (hpre : startsWith rootString (servedPath env rootString idxPage r) = false) :
    (serve env rootString idxPage r).1.outcome = Outcome.notFound ∧
    ∀ q, FSOp.readFileOp q ∉ (serve env rootString idxPage r).2 := by
  have hs := serve_eq_of_GET env rootString idxPage r hm hq
  set sp := servedPath env rootString idxPage r with hspdef
  by_cases ho : env.openOk sp = true
  · rw [ho] at hs
    simp only [if_true] at hs
    by_cases hfg : fileisgood env sp = true
    · rw [afterOpen_eq_of_badRoot env rootString r.rawQuery sp _ hfg hpre] at hs
      rw [hs]
      refine ⟨rfl, fun q => ?_⟩
      have hnp := readFile_not_mem_probeTrace env rootString idxPage r q
      simp [List.mem_append, hnp]
    · rw [Bool.not_eq_true] at hfg
      rw [afterOpen_eq_of_badLink env rootString r.rawQuery sp _ hfg] at hs
      rw [hs]
      refine ⟨rfl, fun q => ?_⟩
      have hnp := readFile_not_mem_probeTrace env rootString idxPage r q
      simp [List.mem_append, hnp]
  · rw [Bool.not_eq_true] at ho
    rw [ho] at hs
    simp only [Bool.false_eq_true, if_false] at hs
    rw [hs]
    exact ⟨rfl, fun q => readFile_not_mem_probeTrace env rootString idxPage r q⟩

/-- Counterexample for C4 as stated: `GET /a/b/..` ends in `..`
without a trailing slash, the `../` guard does not fire, the root
`/r/` is not the filesystem root — yet the canonical path `/r/a` keeps
the root prefix, the prefix check passes, and with `/r/a` an existing
regular HTML file the handler serves its bytes with status 200 instead
of returning not-found. -/
theorem c4_counterexample :
    endsWith "..".toList "/a/b/..".toList = true ∧
    goContains "/a/b/..".toList ddSlash = false ∧
    "/r/".toList ≠ slashL ∧
    servedPath envFileA "/r/".toList indexMdL ⟨gGET, "/a/b/..".toList, []⟩ = "/r/a".toList ∧
    startsWith "/r/".toList
      (servedPath envFileA "/r/".toList indexMdL ⟨gGET, "/a/b/..".toList, []⟩) = true ∧
    (serve envFileA "/r/".toList indexMdL ⟨gGET, "/a/b/..".toList, []⟩).1 =
      ⟨stdHeaders ++ [(hContentType, textHtml)], Outcome.content htmlBytes⟩ := by
  decide

/-- Witness for C4 (amended) at the concrete request `GET /..` with
root `/r/`: the canonical path is `/`, the prefix check fails, the
outcome is not-found and nothing is read. -/
theorem c4_root_escape_notfound_witness :
    servedPath envFileA "/r/".toList indexMdL ⟨gGET, "/..".toList, []⟩ = slashL ∧
    (serve envFileA "/r/".toList indexMdL ⟨gGET, "/..".toList, []⟩).1.outcome =
      Outcome.notFound ∧
    FSOp.readFileOp slashL ∉ (serve envFileA "/r/".toList indexMdL ⟨gGET, "/..".toList, []⟩).2 :=
  have h := c4_root_escape_notfound envFileA "/r/".toList indexMdL
    ⟨gGET, "/..".toList, []⟩ (by decide) (by decide) (by decide)
  ⟨by decide, h.1, h.2 slashL⟩

/-- Claim C3 (amended): `fileisgood(p)` returns true iff `p` is
non-empty and `EvalSymlinks`, applied to `p` canonicalized only when
`p` is not already absolute, succeeds and returns exactly that input
path.  In particular any failure of resolution, and any difference
between the real path and the input — a symlink anywhere in the chain
— yields false.  For an absolute but non-canonical input the code
compares against the input as-is rather than its canonical form; that
is the counterexample to the claim as stated. -/
theorem c3_fileisgood_characterization (env : Env) (p : List Char) :
    fileisgood env p = true ↔
      (p ≠ [] ∧ env.evalSymlinks (condCanon env p) = some (condCanon env p)) := by
  unfold fileisgood
  by_cases hp : p = []
  · simp [hp]
  · simp only [hp, if_false, ne_eq, not_false_iff, true_and]
    cases h : env.evalSymlinks (condCanon env p) with
    | none => simp
    | some rp => simp [beq_iff_eq]

/-- Counterexample for C3 as stated: on the absolute but
non-canonical path `/a/./b`, in a symlink-free filesystem containing
the regular file `/a/b`, canonicalization succeeds (giving `/a/b`),
symlink resolution succeeds and returns the canonical input path —
so the claim's characterisation says true — yet `fileisgood` returns
false, because for absolute inputs it skips canonicalization and
compares the real path against the raw input. -/
theorem c3_counterexample :
    goAbs envNoLink.cwd "/a/./b".toList = "/a/b".toList ∧
    envNoLink.evalSymlinks "/a/b".toList = some "/a/b".toList ∧
    fileisgoodSpec envNoLink "/a/./b".toList = true ∧
    fileisgood envNoLink "/a/./b".toList = false := by
  decide

/-- Witness for C3 (amended) at the canonical path `/a/b` in the
symlink-free environment. -/
theorem c3_fileisgood_characterization_witness :
    fileisgood envNoLink "/a/b".toList = true ↔
      ("/a/b".toList ≠ [] ∧
       envNoLink.evalSymlinks (condCanon envNoLink "/a/b".toList) =
         some (condCanon envNoLink "/a/b".toList)) :=
  c3_fileisgood_characterization envNoLink "/a/b".toList

theorem startsWith_single_cons (a b : Char) (s : List Char) :
    startsWith [a] (b :: s) = (a == b) := by
  simp [startsWith]

theorem endsWith_slash_tail (c : Char) (t : List Char) (ht : t ≠ []) :
    endsWith slashL (c :: t) = endsWith slashL t := by
  unfold endsWith
  have h1 : (c :: t).reverse = t.reverse ++ [c] := by simp
  rw [h1]
  have h2 : slashL.reverse = ['/'] := by decide
  rw [h2]
  cases htr : t.reverse with
  | nil => exact absurd (by simpa using htr) ht
  | cons d ds =>
    rw [List.cons_append, startsWith_single_cons, startsWith_single_cons]

/-- Claim C7 (amended): for a URL path ending in `/` whose remainder
after stripping the leading slash is non-empty, the resolver appends
the literal `"index.md"`, ignoring the configured index filename (the
resolution is independent of it); only for the bare path — empty
remainder — is the configured index filename substituted.  The
counterexample shows a configured index name `home.md` being ignored
for `/d/`. -/
theorem c7_index_substitution (env : Env) (rootString idxPage idxPage2 p : List Char)
    (hs : endsWith slashL p = true) :
    (p.drop 1 ≠ [] →
      resolvePath env rootString idxPage p =
        goAbs env.cwd (rootString ++ (p.drop 1 ++ indexMdL)) ∧
      resolvePath env rootString idxPage p = resolvePath env rootString idxPage2 p) ∧
    (p.drop 1 = [] →
      resolvePath env rootString idxPage p =
        goAbs env.cwd (rootString ++
          (if endsWith slashL idxPage then idxPage ++ indexMdL else idxPage))) := by
  cases p with
  | nil => exact absurd hs (by decide)
  | cons c t =>
    constructor
    · intro hne
      simp only [List.drop_succ_cons, List.drop_zero] at hne ⊢
      have hst : endsWith slashL t = true := by
        rw [← endsWith_slash_tail c t hne]; exact hs
      unfold resolvePath normalizePath
      simp [hne, hst]
    · intro hd
      have ht : t = [] := by simpa using hd
      subst ht
      unfold resolvePath normalizePath
      simp

/-- Counterexample for C7 as stated: with configured index filename
`home.md`, the request path `/d/` resolves to `/r/d/index.md`, not to
the `/r/d/home.md` that substituting the configured index filename
would give. -/
theorem c7_counterexample :
    endsWith slashL "/d/".toList = true ∧
    resolvePath envTriv "/r/".toList "home.md".toList "/d/".toList =
      "/r/d/index.md".toList ∧
    resolvePathSpec envTriv "/r/".toList "home.md".toList "/d/".toList =
      "/r/d/home.md".toList ∧
    resolvePath envTriv "/r/".toList "home.md".toList "/d/".toList ≠
      resolvePathSpec envTriv "/r/".toList "home.md".toList "/d/".toList := by
  decide

/-- Witness for C7 (amended) at the concrete path `/d/` with two
different configured index filenames. -/
theorem c7_index_substitution_witness :
    resolvePath envTriv "/r/".toList "home.md".toList "/d/".toList =
      goAbs envTriv.cwd ("/r/".toList ++ ("/d/".toList.drop 1 ++ indexMdL)) ∧
    resolvePath envTriv "/r/".toList "home.md".toList "/d/".toList =
      resolvePath envTriv "/r/".toList "x.md".toList "/d/".toList :=
  (c7_index_substitution envTriv "/r/".toList "home.md".toList "x.md".toList
    "/d/".toList (by decide)).1 (by decide)

/-- Claim C6: for a GET request whose final served path ends in `.md`
and whose bytes classify as plain text (the request having passed the
existence, symlink and root-prefix checks needed to reach
classification), a query string containing the literal `raw` yields
the file's bytes unchanged with no `Content-Type` set (the headers are
exactly the two standard ones), and a query string not containing
`raw` yields the markdown renderer's output on those same bytes. -/
theorem c6_markdown_raw_vs_rendered (env : Env) (rootString idxPage : List Char)
    (r : Request) (b : List Nat)
    (hm : r.method = gGET) (hq : goContains r.urlPath ddSlash = false)
    (hmd : endsWith dotMd (servedPath env rootString idxPage r) = true)
    (ho : env.openOk (servedPath env rootString idxPage r) = true)
    (hfg : fileisgood env (servedPath env rootString idxPage r) = true)
    (hpre : startsWith rootString (servedPath env rootString idxPage r) = true)
    (hread : env.readFile (servedPath env rootString idxPage r) = some b)
    (hct : startsWith textPlain (env.detect b) = true) :
    (goContains r.rawQuery rawLit = true →
      (serve env rootString idxPage r).1 = ⟨stdHeaders, Outcome.content b⟩) ∧
    (goContains r.rawQuery rawLit = false →
      (serve env rootString idxPage r).1 = ⟨stdHeaders, Outcome.content (env.markdown b)⟩) := by
  have hs := serve_eq_of_GET env rootString idxPage r hm hq
  set sp := servedPath env rootString idxPage r with hspdef
  rw [ho] at hs
  simp only [if_true] at hs
  rw [afterOpen_eq_of_read env rootString r.rawQuery sp _ b hfg hpre hread] at hs
  have hnothtml : endsWith dotHtml sp = false := endsWith_md_not_html sp hmd
  have hnoth : startsWith textHtml (env.detect b) = false := plain_not_html _ hct
  constructor
  · intro hraw
    rw [hs]
    unfold dispatch
    simp [hnothtml, hnoth, hmd, hct, hraw]
  · intro hraw
    rw [hs]
    unfold dispatch
    simp [hnothtml, hnoth, hmd, hct, hraw]

/-- Witness for C6: `GET /doc.md?raw=1` returns the raw bytes of the
file and `GET /doc.md` returns the rendered output `<p>hi</p>\n`. -/
theorem c6_markdown_raw_vs_rendered_witness :
    (serve envDoc "/r/".toList indexMdL ⟨gGET, "/doc.md".toList, "raw=1".toList⟩).1 =
      ⟨stdHeaders, Outcome.content hiBytes⟩ ∧
    (serve envDoc "/r/".toList indexMdL ⟨gGET, "/doc.md".toList, []⟩).1 =
      ⟨stdHeaders, Outcome.content (envDoc.markdown hiBytes)⟩ :=
  ⟨(c6_markdown_raw_vs_rendered envDoc "/r/".toList indexMdL
      ⟨gGET, "/doc.md".toList, "raw=1".toList⟩ hiBytes (by decide) (by decide) (by decide)
      (by decide) (by decide) (by decide) (by decide) (by decide)).1 (by decide),
   (c6_markdown_raw_vs_rendered envDoc "/r/".toList indexMdL
      ⟨gGET, "/doc.md".toList, []⟩ hiBytes (by decide) (by decide) (by decide)
      (by decide) (by decide) (by decide) (by decide) (by decide)).2 (by decide)⟩

/-- Claim C5 (amended): for a GET request whose resolved path ends in
`.html` and whose `.md` sibling is openable, the served path is
substituted to the sibling before classification; provided the query
string does not contain `raw`, the sibling's bytes classify as plain
text, and the sibling passes the symlink and root-prefix checks, the
response is the rendered-markdown output of the sibling's bytes, and
the only path whose contents are ever read is the sibling — never the
`.html` file.  With `raw` in the query string the response is instead
the sibling's unrendered bytes; that is the counterexample to the
claim as stated. -/
theorem c5_html_md_substitution (env : Env) (rootString idxPage : List Char)
    (r : Request) (b : List Nat)
    (hm : r.method = gGET) (hq : goContains r.urlPath ddSlash = false)
    (hhtml : endsWith dotHtml (resolvePath env rootString idxPage r.urlPath) = true)
    (hsib : env.openOk (mdSibling env rootString idxPage r) = true)
    (hraw : goContains r.rawQuery rawLit = false)
    (hfg : fileisgood env (mdSibling env rootString idxPage r) = true)
    (hpre : startsWith rootString (mdSibling env rootString idxPage r) = true)
    (hread : env.readFile (mdSibling env rootString idxPage r) = some b)
    (hct : startsWith textPlain (env.detect b) = true) :
    servedPath env rootString idxPage r = mdSibling env rootString idxPage r ∧
    (serve env rootString idxPage r).1 = ⟨stdHeaders, Outcome.content (env.markdown b)⟩ ∧
    (∀ q, FSOp.readFileOp q ∈ (serve env rootString idxPage r).2 →
      q = mdSibling env rootString idxPage r) := by
  have hsp : servedPath env rootString idxPage r = mdSibling env rootString idxPage r := by
    unfold mdSibling at hsib
    unfold servedPath substHtml mdSibling
    simp [hhtml, hsib]
  have hmd : endsWith dotMd (mdSibling env rootString idxPage r) = true := by
    unfold mdSibling
    exact endsWith_append_self dotMd _
  have hs := serve_eq_of_GET env rootString idxPage r hm hq
  rw [hsp] at hs
  rw [hsib] at hs
  simp only [if_true] at hs
  rw [afterOpen_eq_of_read env rootString r.rawQuery _ _ b hfg hpre hread] at hs
  have hnothtml := endsWith_md_not_html _ hmd
  have hnoth := plain_not_html _ hct
  refine ⟨hsp, ?_, ?_⟩
  · rw [hs]
    unfold dispatch
    simp [hnothtml, hnoth, hmd, hct, hraw]
  · intro q hqmem
    rw [hs] at hqmem
    simp only [List.mem_append] at hqmem
    rcases hqmem with h | h
    · exact absurd h (readFile_not_mem_probeTrace env rootString idxPage r q)
    · simpa using h

/-- Counterexample for C5 as stated: `GET /p.html?raw=1` with
`/r/p.md` existing alongside `/r/p.html` serves the raw bytes `hi` of
the sibling, not the rendered-markdown output `<p>hi</p>\n` — so not
every such request yields the rendered-markdown output. -/
theorem c5_counterexample :
    envPagePair.openOk "/r/p.md".toList = true ∧
    envPagePair.markdown hiBytes = pHiBytes ∧
    (serve envPagePair "/r/".toList indexMdL
      ⟨gGET, "/p.html".toList, "raw=1".toList⟩).1.outcome = Outcome.content hiBytes ∧
    hiBytes ≠ pHiBytes := by
  decide

/-- Witness for C5 (amended): `GET /p.html` with no query string and
`/r/p.md` present serves the rendered-markdown output of the
sibling. -/
theorem c5_html_md_substitution_witness :
    (serve envPagePair "/r/".toList indexMdL ⟨gGET, "/p.html".toList, []⟩).1 =
      ⟨stdHeaders, Outcome.content (envPagePair.markdown hiBytes)⟩ :=
  (c5_html_md_substitution envPagePair "/r/".toList indexMdL
    ⟨gGET, "/p.html".toList, []⟩ hiBytes (by decide) (by decide) (by decide)
    (by decide) (by decide) (by decide) (by decide) (by decide) (by decide)).2.1
